import Mathlib

/- Shallow embedding of the pwbox password-encryption core (src/lib.rs).

   Byte buffers are lists of naturals.  The Rust traits `DeriveKey`,
   `Cipher` and `ObjectSafeCipher` become structures of functions
   (explicit dictionaries); `&mut` buffer parameters become
   "buffer in, new contents out"; `Result<_, E>` becomes `Except`;
   the RNG becomes an explicit stream with a position, threaded through
   `seal`.  The `assert_eq!` panic in `open_into` is modelled by the
   `none` case of an `Option` wrapper around the `Result`. -/

/-- Byte buffers (`[u8]` / `Vec<u8>` / `SmallVec`). -/
abbrev Bytes := List Nat

/-- Expected upper bound on byte buffers created during encryption / decryption
    (`BUFFER_SIZE` in lib.rs). -/
def BUFFER_SIZE : Nat := 256

/-- `SensitiveData`: container for secret bytes, zeroed on drop (lib.rs 134). -/
structure SensitiveData where
  data : Bytes
deriving Repr

/-- `SensitiveData::zeros(len)`: a buffer of `len` zero bytes (lib.rs 137-139). -/
def SensitiveData.zeros (len : Nat) : SensitiveData :=
  ⟨List.replicate len 0⟩

/-- Model of `ClearOnDrop` from the `clear_on_drop` crate: overwrites the
    wrapped buffer with zeros when it is dropped. -/
def clearOnDrop (b : Bytes) : Bytes :=
  List.replicate b.length 0

/-- Contents of a `SensitiveData` buffer at the instant its storage is
    released: the `Drop` impl (lib.rs 156-161) runs `ClearOnDrop` over the
    bytes, so whatever was stored is overwritten with zeros first. -/
def SensitiveData.dropContents (s : SensitiveData) : Bytes :=
  clearOnDrop s.data

/-- `Box<dyn Fail>`: an opaque backend error cause. -/
abbrev Fail := String

/-- `CipherOutput` (lib.rs 268-276): ciphertext together with its MAC. -/
structure CipherOutput where
  ciphertext : Bytes
  mac : Bytes
deriving Repr, DecidableEq

/-- The `DeriveKey` trait (lib.rs 178-189) as an explicit dictionary.
    `derive_key(buf, password, salt)` takes the key buffer and returns its
    new contents, or a backend failure. -/
structure DeriveKey where
  salt_len : Nat
  derive_key : Bytes → Bytes → Bytes → Except Fail Bytes

/-- `impl DeriveKey for Box<dyn DeriveKey>` (lib.rs 191-204): plain
    delegation to the boxed value. -/
def boxDeriveKey (k : DeriveKey) : DeriveKey :=
  { salt_len := k.salt_len
    derive_key := fun buf password salt => k.derive_key buf password salt }

/-- The `Cipher` trait (lib.rs 207-239): three length constants plus static
    `seal` / `open`.  `open` writes the plaintext over the output buffer on
    success (`some newContents`) and reports MAC-verification failure as
    `none` (Rust `Err(())`). -/
structure Cipher where
  KEY_LEN : Nat
  NONCE_LEN : Nat
  MAC_LEN : Nat
  «seal» : Bytes → Bytes → Bytes → CipherOutput
  «open» : Bytes → CipherOutput → Bytes → Bytes → Option Bytes

/-- The object-safe equivalent of `Cipher` (lib.rs 251-264). -/
structure ObjectSafeCipher where
  key_len : Nat
  nonce_len : Nat
  mac_len : Nat
  «seal» : Bytes → Bytes → Bytes → CipherOutput
  «open» : Bytes → CipherOutput → Bytes → Bytes → Option Bytes

/-- `impl ObjectSafeCipher for CipherObject<T>` (lib.rs 278-304): the
    zero-sized wrapper forwards every method to the concrete cipher `T`. -/
def CipherObject (T : Cipher) : ObjectSafeCipher :=
  { key_len := T.KEY_LEN
    nonce_len := T.NONCE_LEN
    mac_len := T.MAC_LEN
    «seal» := fun message nonce key => T.«seal» message nonce key
    «open» := fun output encrypted nonce key => T.«open» output encrypted nonce key }

/-- `impl ObjectSafeCipher for Box<dyn ObjectSafeCipher>` (lib.rs 306-332):
    plain delegation to the boxed value. -/
def boxObjectSafeCipher (c : ObjectSafeCipher) : ObjectSafeCipher :=
  { key_len := c.key_len
    nonce_len := c.nonce_len
    mac_len := c.mac_len
    «seal» := fun message nonce key => c.«seal» message nonce key
    «open» := fun output encrypted nonce key => c.«open» output encrypted nonce key }

/-- The `Error` enum (lib.rs 336-396). -/
inductive Error where
  | NoCipher (cipherName : String)
  | NoKdf (kdfName : String)
  | KdfParams (cause : String)
  | NonceLen
  | MacLen
  | SaltLen
  | MacMismatch
  | DeriveKey (cause : Fail)
deriving Repr, DecidableEq

/-- A deterministic model of the caller-supplied random source: an infinite
    byte stream together with the current read position. -/
structure Rng where
  stream : Nat → Nat
  pos : Nat

/-- `rng.fill_bytes(buf)` for a buffer of length `n`: the next `n` stream
    bytes, advancing the position. -/
def Rng.fill_bytes (r : Rng) (n : Nat) : Bytes × Rng :=
  ((List.range n).map fun i => r.stream (r.pos + i), { r with pos := r.pos + n })

/-- `PwBoxInner` (lib.rs 410-417).  The `kdf` and `cipher` fields hold the
    capability dictionaries, covering both the statically typed and the
    type-erased instantiations of the Rust generics. -/
structure PwBoxInner where
  salt : Bytes
  nonce : Bytes
  encrypted : CipherOutput
  kdf : DeriveKey
  cipher : ObjectSafeCipher

/-- `PwBoxInner::seal` (lib.rs 497-522): draw salt and nonce from the RNG,
    derive the key from the password and salt, encrypt, and assemble the
    box; a KDF failure is propagated via `?`. -/
def PwBoxInner.«seal» (kdf : DeriveKey) (cipher : ObjectSafeCipher) (rng : Rng)
    (password message : Bytes) : Except Fail PwBoxInner × Rng :=
  let salt0 := SensitiveData.zeros kdf.salt_len
  let (saltBytes, rng1) := rng.fill_bytes salt0.data.length
  let nonce0 := SensitiveData.zeros cipher.nonce_len
  let (nonceBytes, rng2) := rng1.fill_bytes nonce0.data.length
  let key0 := SensitiveData.zeros cipher.key_len
  match kdf.derive_key key0.data password saltBytes with
  | .error e => (.error e, rng2)
  | .ok key =>
      let encrypted := cipher.«seal» message nonceBytes key
      (.ok { salt := saltBytes, nonce := nonceBytes, encrypted := encrypted,
             kdf := kdf, cipher := cipher }, rng2)

/-- `PwBoxInner::len` (lib.rs 524-526): byte size of the stored ciphertext. -/
def PwBoxInner.len (b : PwBoxInner) : Nat :=
  b.encrypted.ciphertext.length

/-- `PwBoxInner::open_into` (lib.rs 528-550).  The result is wrapped in
    `Option`: `none` is the `assert_eq!` panic on a wrong-sized output
    buffer; otherwise the key is derived (failure mapped to
    `Error::DeriveKey`) and the cipher opens the box (failure mapped to
    `Error::MacMismatch`), returning the bytes written into `output`. -/
def PwBoxInner.open_into (b : PwBoxInner) (output password : Bytes) :
    Option (Except Error Bytes) :=
  if output.length = b.len then
    let key0 := SensitiveData.zeros b.cipher.key_len
    match b.kdf.derive_key key0.data password b.salt with
    | .error e => some (.error (.DeriveKey e))
    | .ok key =>
        match b.cipher.«open» output b.encrypted b.nonce key with
        | none => some (.error .MacMismatch)
        | some out => some (.ok out)
  else
    none

/-- `PwBoxInner::open` (lib.rs 554-557): allocate a zeroed `SensitiveData`
    of the ciphertext length and delegate to `open_into`; on success the
    box contents are the bytes written into that buffer. -/
def PwBoxInner.«open» (b : PwBoxInner) (password : Bytes) :
    Option (Except Error Bytes) :=
  let output := SensitiveData.zeros b.len
  b.open_into output.data password

/-- `PwBox` (lib.rs 406-408) wraps `PwBoxInner` over a `CipherObject`. -/
structure PwBox where
  inner : PwBoxInner

/-- `PwBox::new` (lib.rs 459-466) via `PwBoxInner::seal` with a
    `CipherObject` handle for the concrete cipher. -/
def PwBox.new (kdf : DeriveKey) (C : Cipher) (rng : Rng)
    (password message : Bytes) : Except Fail PwBox × Rng :=
  match PwBoxInner.«seal» kdf (CipherObject C) rng password message with
  | (.error e, rng2) => (.error e, rng2)
  | (.ok inner, rng2) => (.ok { inner := inner }, rng2)

/-- `PwBox::len` (lib.rs 473-475). -/
def PwBox.len (b : PwBox) : Nat :=
  b.inner.len

/-- `PwBox::open_into` (lib.rs 481-487). -/
def PwBox.open_into (b : PwBox) (output password : Bytes) :
    Option (Except Error Bytes) :=
  b.inner.open_into output password

/-- `PwBox::open` (lib.rs 491-493). -/
def PwBox.«open» (b : PwBox) (password : Bytes) :
    Option (Except Error Bytes) :=
  b.inner.«open» password

/- Instrumented variants.  The Rust compiler inserts drop glue on every
   exit path; to reason about it, the same control flow is replayed while
   recording buffer lifecycle and primitive-call events: `alloc n` when
   `SensitiveData::zeros(n)` runs, `release c` when a `SensitiveData`
   buffer's storage is handed back with contents `c` (after its `Drop`
   impl has run), and one event per KDF / cipher invocation recording the
   length of the key buffer involved. -/

/-- Lifecycle and call events recorded by the instrumented operations. -/
inductive Event where
  | alloc (len : Nat)
  | release (contents : Bytes)
  | deriveKeyCall (bufLen : Nat)
  | cipherSealCall (keyLen : Nat)
  | cipherOpenCall (keyLen : Nat)
deriving Repr, DecidableEq

/-- Is this a `release` event? -/
def Event.isRelease : Event → Bool
  | .release _ => true
  | _ => false

/-- Is this an `alloc` event? -/
def Event.isAlloc : Event → Bool
  | .alloc _ => true
  | _ => false

/-- Every `release` event in the trace carries only zero bytes. -/
def releasesZeroed (tr : List Event) : Bool :=
  tr.all fun e =>
    match e with
    | .release c => c.all fun x => x == 0
    | _ => true

/-- Every `deriveKeyCall` event in the trace records a buffer of length `n`. -/
def deriveKeyCallsHaveLen (tr : List Event) (n : Nat) : Bool :=
  tr.all fun e =>
    match e with
    | .deriveKeyCall m => m == n
    | _ => true

/-- Every `cipherSealCall` / `cipherOpenCall` event in the trace records a
    key of length `n`. -/
def cipherCallsHaveKeyLen (tr : List Event) (n : Nat) : Bool :=
  tr.all fun e =>
    match e with
    | .cipherSealCall m => m == n
    | .cipherOpenCall m => m == n
    | _ => true

/-- Instrumented `PwBoxInner::seal` (lib.rs 497-522).  Result and RNG agree
    with `PwBoxInner.seal»`; the trace additionally records the three
    `SensitiveData` buffers (`salt`, `nonce`, `key`), the KDF call, the
    cipher call, and — on both the error path of `?` and the normal return
    — the release of each buffer after its `Drop` impl zeroed it (locals
    drop in reverse declaration order: `key`, `nonce`, `salt`). -/
def PwBoxInner.sealEv (kdf : DeriveKey) (cipher : ObjectSafeCipher) (rng : Rng)
    (password message : Bytes) : (Except Fail PwBoxInner × Rng) × List Event :=
  let salt0 := SensitiveData.zeros kdf.salt_len
  let (saltBytes, rng1) := rng.fill_bytes salt0.data.length
  let salt : SensitiveData := ⟨saltBytes⟩
  let nonce0 := SensitiveData.zeros cipher.nonce_len
  let (nonceBytes, rng2) := rng1.fill_bytes nonce0.data.length
  let nonce : SensitiveData := ⟨nonceBytes⟩
  let key0 := SensitiveData.zeros cipher.key_len
  match kdf.derive_key key0.data password saltBytes with
  | .error e =>
      ((.error e, rng2),
       [.alloc kdf.salt_len, .alloc cipher.nonce_len, .alloc cipher.key_len,
        .deriveKeyCall key0.data.length,
        .release key0.dropContents, .release nonce.dropContents,
        .release salt.dropContents])
  | .ok key =>
      let keyS : SensitiveData := ⟨key⟩
      let encrypted := cipher.«seal» message nonceBytes key
      ((.ok { salt := saltBytes, nonce := nonceBytes, encrypted := encrypted,
              kdf := kdf, cipher := cipher }, rng2),
       [.alloc kdf.salt_len, .alloc cipher.nonce_len, .alloc cipher.key_len,
        .deriveKeyCall key0.data.length,
        .cipherSealCall key.length,
        .release keyS.dropContents, .release nonce.dropContents,
        .release salt.dropContents])

/-- Instrumented `PwBoxInner::open_into` (lib.rs 528-550).  On the panic
    path the `assert_eq!` fires before any `SensitiveData` is created, so
    the trace is empty; on the two error paths and the success path the
    `key` buffer is allocated, used, and released zeroed. -/
def PwBoxInner.open_intoEv (b : PwBoxInner) (output password : Bytes) :
    Option (Except Error Bytes) × List Event :=
  if output.length = b.len then
    let key0 := SensitiveData.zeros b.cipher.key_len
    match b.kdf.derive_key key0.data password b.salt with
    | .error e =>
        (some (.error (.DeriveKey e)),
         [.alloc b.cipher.key_len, .deriveKeyCall key0.data.length,
          .release key0.dropContents])
    | .ok key =>
        let keyS : SensitiveData := ⟨key⟩
        match b.cipher.«open» output b.encrypted b.nonce key with
        | none =>
            (some (.error .MacMismatch),
             [.alloc b.cipher.key_len, .deriveKeyCall key0.data.length,
              .cipherOpenCall key.length, .release keyS.dropContents])
        | some out =>
            (some (.ok out),
             [.alloc b.cipher.key_len, .deriveKeyCall key0.data.length,
              .cipherOpenCall key.length, .release keyS.dropContents])
  else
    (none, [])

/-- Instrumented `PwBoxInner::open` (lib.rs 554-557).  The `output`
    staging buffer is allocated first; on success it is moved out to the
    caller (released later by the caller's drop, still zeroed per
    `SensitiveData.dropContents`), on failure it is dropped — zeroed —
    inside the call. -/
def PwBoxInner.openEv (b : PwBoxInner) (password : Bytes) :
    Option (Except Error Bytes) × List Event :=
  let output := SensitiveData.zeros b.len
  match b.open_intoEv output.data password with
  | (some (.ok out), tr) => (some (.ok out), .alloc b.len :: tr)
  | (some (.error e), tr) =>
      (some (.error e), (.alloc b.len :: tr) ++ [.release output.dropContents])
  | (none, tr) =>
      (none, (.alloc b.len :: tr) ++ [.release output.dropContents])

/-- The instrumented seal computes the same result and RNG as `seal`. -/
theorem sealEv_fst (kdf : DeriveKey) (cipher : ObjectSafeCipher) (rng : Rng)
    (password message : Bytes) :
    (PwBoxInner.sealEv kdf cipher rng password message).1 =
      PwBoxInner.«seal» kdf cipher rng password message := by
  unfold PwBoxInner.sealEv PwBoxInner.«seal»
  rcases hd : kdf.derive_key (SensitiveData.zeros cipher.key_len).data password
      (rng.fill_bytes (SensitiveData.zeros kdf.salt_len).data.length).1 with e | key <;>
    simp [hd]

/-- The instrumented open_into computes the same result as `open_into`. -/
theorem open_intoEv_fst (b : PwBoxInner) (output password : Bytes) :
    (b.open_intoEv output password).1 = b.open_into output password := by
  unfold PwBoxInner.open_intoEv PwBoxInner.open_into
  by_cases h : output.length = b.len
  · simp only [h, if_pos]
    rcases hd : b.kdf.derive_key (SensitiveData.zeros b.cipher.key_len).data password b.salt
        with e | key
    · simp [hd]
    · rcases ho : b.cipher.«open» output b.encrypted b.nonce key <;> simp [hd, ho]
  · simp [h]

/-- The instrumented open computes the same result as `open`. -/
theorem openEv_fst (b : PwBoxInner) (password : Bytes) :
    (b.openEv password).1 = b.«open» password := by
  unfold PwBoxInner.openEv PwBoxInner.«open»
  have h := open_intoEv_fst b (SensitiveData.zeros b.len).data password
  rcases hEv : b.open_intoEv (SensitiveData.zeros b.len).data password with ⟨r, tr⟩
  rw [hEv] at h
  simp only at h
  rcases r with _ | r
  · simp [hEv, ← h]
  · rcases r with e | out <;> simp [hEv, ← h]

/- Concrete fixtures: a toy KDF and toy ciphers satisfying the capability
   contracts, and deterministic RNG streams, used to witness the theorems
   below on computable inputs. -/

/-- A toy KDF: the derived key repeats `password.sum + salt.sum`; always
    succeeds and writes exactly `buf.length` bytes. -/
def testKdf : DeriveKey :=
  { salt_len := 4
    derive_key := fun buf password salt =>
      .ok (List.replicate buf.length (password.sum + salt.sum)) }

/-- A toy authenticated cipher: shifts every byte by `nonce.sum + key.sum`
    and uses that shift as a one-byte MAC; `open` verifies the MAC and the
    output-buffer length, then unshifts. -/
def testCipher : ObjectSafeCipher :=
  { key_len := 2
    nonce_len := 3
    mac_len := 1
    «seal» := fun message nonce key =>
      { ciphertext := message.map fun b => b + (nonce.sum + key.sum)
        mac := [nonce.sum + key.sum] }
    «open» := fun output encrypted nonce key =>
      if encrypted.mac = [nonce.sum + key.sum] ∧
          output.length = encrypted.ciphertext.length then
        some (encrypted.ciphertext.map fun b => b - (nonce.sum + key.sum))
      else
        none }

/-- A deterministic RNG stream. -/
def testRng : Rng := { stream := fun i => i + 1, pos := 0 }

/-- A second deterministic RNG stream, disjoint from `testRng`. -/
def testRngB : Rng := { stream := fun i => i + 100, pos := 0 }

/-- Fallback box for extracting seal results. -/
def defaultBox : PwBoxInner :=
  { salt := [], nonce := [], encrypted := { ciphertext := [], mac := [] },
    kdf := testKdf, cipher := testCipher }

/-- The box sealed from password `[7]` and message `[10, 20]` with the toy
    KDF and cipher over `testRng`. -/
def testBox : PwBoxInner :=
  ((PwBoxInner.«seal» testKdf testCipher testRng [7] [10, 20]).1).toOption.getD defaultBox

example : testBox.len = 2 := by rfl
example : testBox.salt = [1, 2, 3, 4] := by rfl
example : testBox.nonce = [5, 6, 7] := by rfl
example : testBox.«open» [7] = some (.ok [10, 20]) := by rfl
example : testBox.«open» [8] = some (.error .MacMismatch) := by rfl
example : testBox.open_into [0] [7] = none := by rfl

/-- `SensitiveData.zeros n` holds `n` bytes. -/
theorem zeros_data_length (n : Nat) : (SensitiveData.zeros n).data.length = n := by
  simp [SensitiveData.zeros]

/-- With a correctly sized output buffer, `open_into` reduces to key
    derivation followed by the cipher's open. -/
theorem open_into_of_len (b : PwBoxInner) (output password : Bytes)
    (h : output.length = b.len) :
    b.open_into output password =
      (match b.kdf.derive_key (SensitiveData.zeros b.cipher.key_len).data password b.salt with
       | .error e => some (.error (.DeriveKey e))
       | .ok key =>
           match b.cipher.«open» output b.encrypted b.nonce key with
           | none => some (.error .MacMismatch)
           | some out => some (.ok out)) := by
  unfold PwBoxInner.open_into
  rw [if_pos h]

/-- Inversion for a successful `seal`: the key derivation succeeded on the
    drawn salt, and the box fields are the drawn salt, the drawn nonce, and
    the cipher's output under the derived key. -/
theorem seal_ok_inv (kdf : DeriveKey) (cipher : ObjectSafeCipher) (rng rng2 : Rng)
    (password message : Bytes) (box : PwBoxInner)
    (hSeal : PwBoxInner.«seal» kdf cipher rng password message = (.ok box, rng2)) :
    ∃ key,
      kdf.derive_key (SensitiveData.zeros cipher.key_len).data password
          (rng.fill_bytes kdf.salt_len).1 = .ok key ∧
      box = { salt := (rng.fill_bytes kdf.salt_len).1,
              nonce := ((rng.fill_bytes kdf.salt_len).2.fill_bytes cipher.nonce_len).1,
              encrypted := cipher.«seal» message
                (((rng.fill_bytes kdf.salt_len).2.fill_bytes cipher.nonce_len).1) key,
              kdf := kdf, cipher := cipher } := by
  unfold PwBoxInner.«seal» at hSeal
  simp only [zeros_data_length] at hSeal
  rcases hs : rng.fill_bytes kdf.salt_len with ⟨saltBytes, rng1⟩
  rw [hs] at hSeal
  rcases hn : rng1.fill_bytes cipher.nonce_len with ⟨nonceBytes, rngN⟩
  rw [hn] at hSeal
  simp only at hSeal
  rcases hd : kdf.derive_key (SensitiveData.zeros cipher.key_len).data password saltBytes
      with e | key
  · rw [hd] at hSeal
    simp at hSeal
  · rw [hd] at hSeal
    simp only [Prod.mk.injEq, Except.ok.injEq] at hSeal
    obtain ⟨hbox, -⟩ := hSeal
    exact ⟨key, rfl, hbox.symm⟩

/-- C1: round-trip.  For every password and message, opening a sealed box
    with the same password returns the original message, assuming the
    cipher contract: ciphertext has the plaintext's size, and `open`
    inverts `seal` under the same nonce and key.  (The KDF is a pure
    function of `(password, salt)` in the embedding, so determinism holds
    by construction.) -/
theorem seal_open_roundtrip
    (kdf : DeriveKey) (cipher : ObjectSafeCipher) (rng rng2 : Rng)
    (password message : Bytes) (box : PwBoxInner)
    (hLen : ∀ m n k, (cipher.«seal» m n k).ciphertext.length = m.length)
    (hInv : ∀ m n k out, out.length = m.length →
        cipher.«open» out (cipher.«seal» m n k) n k = some m)
    (hSeal : PwBoxInner.«seal» kdf cipher rng password message = (.ok box, rng2)) :
    box.«open» password = some (.ok message) := by
  obtain ⟨key, hd, hbox⟩ := seal_ok_inv kdf cipher rng rng2 password message box hSeal
  subst hbox
  unfold PwBoxInner.«open»
  rw [open_into_of_len _ _ _ (by simp [PwBoxInner.len, zeros_data_length])]
  simp only
  rw [hd]
  simp only
  rw [hInv message _ key _ (by simp [SensitiveData.zeros, PwBoxInner.len, hLen])]

/-- Witness for C1 at the toy KDF / cipher: the sealed box of password
    `[7]` and message `[10, 20]` opens back to `[10, 20]`. -/
theorem seal_open_roundtrip_witness :
    PwBoxInner.«seal» testKdf testCipher testRng [7] [10, 20] =
      (.ok testBox, (PwBoxInner.«seal» testKdf testCipher testRng [7] [10, 20]).2) ∧
    testBox.«open» [7] = some (.ok [10, 20]) :=
  ⟨rfl,
   seal_open_roundtrip testKdf testCipher testRng
     (PwBoxInner.«seal» testKdf testCipher testRng [7] [10, 20]).2
     [7] [10, 20] testBox
     (fun m n k => by simp [testCipher])
     (fun m n k out h => by
       simp [testCipher, h, List.map_map, Function.comp_def, Nat.add_sub_cancel,
         List.map_id])
     rfl⟩

/-- A replicated-zero buffer contains only zero bytes. -/
theorem allZero_replicate (n : Nat) :
    (List.replicate n 0).all (fun x => x == 0) = true := by
  simp [List.all_eq_true, List.mem_replicate]

/-- A `SensitiveData` buffer contains only zero bytes at release time. -/
theorem dropContents_allZero (s : SensitiveData) :
    s.dropContents.all (fun x => x == 0) = true := by
  unfold SensitiveData.dropContents clearOnDrop
  exact allZero_replicate _

/-- Every release in a seal trace carries only zeros. -/
theorem sealEv_releasesZeroed (kdf : DeriveKey) (cipher : ObjectSafeCipher)
    (rng : Rng) (password message : Bytes) :
    releasesZeroed (PwBoxInner.sealEv kdf cipher rng password message).2 = true := by
  unfold PwBoxInner.sealEv
  rcases hd : kdf.derive_key (SensitiveData.zeros cipher.key_len).data password
      (rng.fill_bytes (SensitiveData.zeros kdf.salt_len).data.length).1 with e | key <;>
    simp [hd, releasesZeroed, dropContents_allZero]

/-- A seal trace releases as many buffers as it allocates. -/
theorem sealEv_release_count (kdf : DeriveKey) (cipher : ObjectSafeCipher)
    (rng : Rng) (password message : Bytes) :
    (PwBoxInner.sealEv kdf cipher rng password message).2.countP Event.isRelease =
      (PwBoxInner.sealEv kdf cipher rng password message).2.countP Event.isAlloc := by
  unfold PwBoxInner.sealEv
  rcases hd : kdf.derive_key (SensitiveData.zeros cipher.key_len).data password
      (rng.fill_bytes (SensitiveData.zeros kdf.salt_len).data.length).1 with e | key <;>
    simp [hd, List.countP_cons, Event.isRelease, Event.isAlloc]

/-- Every release in an open_into trace carries only zeros. -/
theorem open_intoEv_releasesZeroed (b : PwBoxInner) (output password : Bytes) :
    releasesZeroed (b.open_intoEv output password).2 = true := by
  unfold PwBoxInner.open_intoEv
  by_cases h : output.length = b.len
  · simp only [h, if_pos]
    rcases hd : b.kdf.derive_key (SensitiveData.zeros b.cipher.key_len).data password b.salt
        with e | key
    · simp [hd, releasesZeroed, dropContents_allZero]
    · rcases ho : b.cipher.«open» output b.encrypted b.nonce key <;>
        simp [hd, ho, releasesZeroed, dropContents_allZero]
  · simp [h, releasesZeroed]

/-- An open_into trace releases as many buffers as it allocates. -/
theorem open_intoEv_release_count (b : PwBoxInner) (output password : Bytes) :
    (b.open_intoEv output password).2.countP Event.isRelease =
      (b.open_intoEv output password).2.countP Event.isAlloc := by
  unfold PwBoxInner.open_intoEv
  by_cases h : output.length = b.len
  · simp only [h, if_pos]
    rcases hd : b.kdf.derive_key (SensitiveData.zeros b.cipher.key_len).data password b.salt
        with e | key
    · simp [hd, List.countP_cons, Event.isRelease, Event.isAlloc]
    · rcases ho : b.cipher.«open» output b.encrypted b.nonce key <;>
        simp [hd, ho, List.countP_cons, Event.isRelease, Event.isAlloc]
  · simp [h]

/-- Every release in an open trace carries only zeros. -/
theorem openEv_releasesZeroed (b : PwBoxInner) (password : Bytes) :
    releasesZeroed (b.openEv password).2 = true := by
  unfold PwBoxInner.openEv
  have htr := open_intoEv_releasesZeroed b (SensitiveData.zeros b.len).data password
  rcases hEv : b.open_intoEv (SensitiveData.zeros b.len).data password with ⟨r, tr⟩
  rw [hEv] at htr
  simp only at htr
  rcases r with _ | r
  · simp [hEv, releasesZeroed, List.all_append, dropContents_allZero]
    simpa [releasesZeroed] using htr
  · rcases r with e | out
    · simp [hEv, releasesZeroed, List.all_append, dropContents_allZero]
      simpa [releasesZeroed] using htr
    · simp [hEv, releasesZeroed]
      simpa [releasesZeroed] using htr

/-- C2: every `SensitiveData` buffer created by `seal`, `open_into` or
    `open` — the salt / nonce / key staging buffers and the plaintext
    buffer — has all bytes overwritten with zero before its storage is
    released, on every exit path (KDF failure, MAC failure, panic path and
    normal return), and each operation releases every buffer it allocates
    (the plaintext buffer that `open` hands to the caller is likewise
    zeroed when the caller drops it, per `SensitiveData.dropContents`). -/
theorem sensitive_buffers_zeroed_on_release
    (s : SensitiveData)
    (kdf : DeriveKey) (cipher : ObjectSafeCipher) (rng : Rng)
    (password message : Bytes) (b : PwBoxInner) (output pw2 pw3 : Bytes) :
    s.dropContents.all (fun x => x == 0) = true ∧
    releasesZeroed (PwBoxInner.sealEv kdf cipher rng password message).2 = true ∧
    (PwBoxInner.sealEv kdf cipher rng password message).2.countP Event.isRelease =
      (PwBoxInner.sealEv kdf cipher rng password message).2.countP Event.isAlloc ∧
    releasesZeroed (b.open_intoEv output pw2).2 = true ∧
    (b.open_intoEv output pw2).2.countP Event.isRelease =
      (b.open_intoEv output pw2).2.countP Event.isAlloc ∧
    releasesZeroed (b.openEv pw3).2 = true :=
  ⟨dropContents_allZero s,
   sealEv_releasesZeroed kdf cipher rng password message,
   sealEv_release_count kdf cipher rng password message,
   open_intoEv_releasesZeroed b output pw2,
   open_intoEv_release_count b output pw2,
   openEv_releasesZeroed b pw3⟩

/-- A `seal` call fails exactly when key derivation on the drawn salt
    fails, and the backend cause is passed through unwrapped. -/
theorem seal_fst_error_iff (kdf : DeriveKey) (cipher : ObjectSafeCipher) (rng : Rng)
    (password message : Bytes) (e2 : Fail) :
    (PwBoxInner.«seal» kdf cipher rng password message).1 = .error e2 ↔
      kdf.derive_key (SensitiveData.zeros cipher.key_len).data password
        (rng.fill_bytes kdf.salt_len).1 = .error e2 := by
  unfold PwBoxInner.«seal»
  simp only [zeros_data_length]
  rcases hs : rng.fill_bytes kdf.salt_len with ⟨saltBytes, rng1⟩
  rcases hn : rng1.fill_bytes cipher.nonce_len with ⟨nonceBytes, rngN⟩
  simp only
  rcases hd : kdf.derive_key (SensitiveData.zeros cipher.key_len).data password saltBytes
      with e | key <;> simp [hd]

/-- C3: with a correctly sized buffer, `open_into` returns an error exactly
    when key derivation or MAC verification fails: a KDF failure surfaces
    as `Error.DeriveKey` wrapping the backend cause, a cipher verification
    failure as the single merged `Error.MacMismatch`; and `seal` fails
    exactly when `derive_key` fails, propagating that cause. -/
theorem open_error_cases
    (b : PwBoxInner) (output password : Bytes)
    (kdf : DeriveKey) (cipher : ObjectSafeCipher) (rng : Rng) (pw2 msg : Bytes)
    (hlen : output.length = b.len) :
    (∀ e, b.open_into output password = some (.error e) ↔
        (∃ c, b.kdf.derive_key (SensitiveData.zeros b.cipher.key_len).data password b.salt =
            .error c ∧ e = .DeriveKey c) ∨
        (∃ key, b.kdf.derive_key (SensitiveData.zeros b.cipher.key_len).data password b.salt =
            .ok key ∧ b.cipher.«open» output b.encrypted b.nonce key = none ∧
            e = .MacMismatch)) ∧
    (∀ e2, (PwBoxInner.«seal» kdf cipher rng pw2 msg).1 = .error e2 ↔
        kdf.derive_key (SensitiveData.zeros cipher.key_len).data pw2
          (rng.fill_bytes kdf.salt_len).1 = .error e2) := by
  constructor
  · intro e
    rw [open_into_of_len _ _ _ hlen]
    rcases hd : b.kdf.derive_key (SensitiveData.zeros b.cipher.key_len).data password b.salt
        with c | key
    · simp [hd, eq_comm]
    · rcases ho : b.cipher.«open» output b.encrypted b.nonce key <;> simp [hd, ho, eq_comm]
  · intro e2
    exact seal_fst_error_iff kdf cipher rng pw2 msg e2

/-- Witness for C3 at the toy KDF / cipher with a correctly sized buffer. -/
theorem open_error_cases_witness :
    ([0, 0] : Bytes).length = testBox.len ∧
    ((∀ e, testBox.open_into [0, 0] [7] = some (.error e) ↔
        (∃ c, testBox.kdf.derive_key (SensitiveData.zeros testBox.cipher.key_len).data [7]
            testBox.salt = .error c ∧ e = .DeriveKey c) ∨
        (∃ key, testBox.kdf.derive_key (SensitiveData.zeros testBox.cipher.key_len).data [7]
            testBox.salt = .ok key ∧
            testBox.cipher.«open» [0, 0] testBox.encrypted testBox.nonce key = none ∧
            e = .MacMismatch)) ∧
     (∀ e2, (PwBoxInner.«seal» testKdf testCipher testRng [7] [10, 20]).1 = .error e2 ↔
        testKdf.derive_key (SensitiveData.zeros testCipher.key_len).data [7]
          (testRng.fill_bytes testKdf.salt_len).1 = .error e2)) :=
  ⟨rfl, open_error_cases testBox [0, 0] [7] testKdf testCipher testRng [7] [10, 20] rfl⟩

/-- C4: calling `open_into` with an output buffer whose length differs from
    the ciphertext length hits the `assert_eq!` (modelled `none`) — a
    panic, not an `Error` value — and the empty trace shows no buffer is
    allocated and no KDF or cipher call is attempted. -/
theorem open_into_panics_on_len_mismatch
    (b : PwBoxInner) (output password : Bytes)
    (h : output.length ≠ b.len) :
    b.open_intoEv output password = (none, []) ∧
    b.open_into output password = none := by
  constructor
  · unfold PwBoxInner.open_intoEv
    simp [h]
  · unfold PwBoxInner.open_into
    simp [h]

/-- Witness for C4: an empty output buffer against the two-byte test box. -/
theorem open_into_panics_on_len_mismatch_witness :
    ([] : Bytes).length ≠ testBox.len ∧
    (testBox.open_intoEv [] [9] = (none, []) ∧ testBox.open_into [] [9] = none) :=
  ⟨by decide, open_into_panics_on_len_mismatch testBox [] [9] (by decide)⟩

/-- C5: `len` returns the stored ciphertext's length, and for a box
    produced by `seal` this equals the original message length, given the
    cipher contract that ciphertext size equals plaintext size. -/
theorem len_eq_message_length
    (kdf : DeriveKey) (cipher : ObjectSafeCipher) (rng rng2 : Rng)
    (password message : Bytes) (box : PwBoxInner)
    (hct : ∀ m n k, (cipher.«seal» m n k).ciphertext.length = m.length)
    (hSeal : PwBoxInner.«seal» kdf cipher rng password message = (.ok box, rng2)) :
    box.len = box.encrypted.ciphertext.length ∧ box.len = message.length := by
  obtain ⟨key, hd, hbox⟩ := seal_ok_inv kdf cipher rng rng2 password message box hSeal
  subst hbox
  exact ⟨rfl, by simp [PwBoxInner.len, hct]⟩

/-- Witness for C5: the test box stores 2 ciphertext bytes for the 2-byte
    message. -/
theorem len_eq_message_length_witness :
    PwBoxInner.«seal» testKdf testCipher testRng [7] [10, 20] =
      (.ok testBox, (PwBoxInner.«seal» testKdf testCipher testRng [7] [10, 20]).2) ∧
    (testBox.len = testBox.encrypted.ciphertext.length ∧
     testBox.len = ([10, 20] : Bytes).length) :=
  ⟨rfl,
   len_eq_message_length testKdf testCipher testRng
     (PwBoxInner.«seal» testKdf testCipher testRng [7] [10, 20]).2 [7] [10, 20] testBox
     (fun m n k => by simp [testCipher]) rfl⟩

/-- `fill_bytes` draws exactly the requested number of bytes. -/
theorem fill_bytes_length (r : Rng) (n : Nat) : (r.fill_bytes n).1.length = n := by
  simp [Rng.fill_bytes]

/-- C6: a box constructed by `seal` satisfies `salt.length = kdf.salt_len`
    and `nonce.length = cipher.nonce_len`; the key buffer handed to
    `derive_key` has length `cipher.key_len` in both `seal` and
    `open_into`, and — given the KDF contract that the derived key fills
    the buffer — so does the key handed to the cipher.  (`open` and
    `open_into` take the container immutably, so the invariants are
    preserved by construction afterwards.) -/
theorem seal_length_invariants
    (kdf : DeriveKey) (cipher : ObjectSafeCipher) (rng rng2 : Rng)
    (password message : Bytes) (box : PwBoxInner)
    (b2 : PwBoxInner) (out2 pw2 : Bytes)
    (hkdf : ∀ buf p s key, kdf.derive_key buf p s = .ok key → key.length = buf.length)
    (hkdf2 : ∀ buf p s key, b2.kdf.derive_key buf p s = .ok key → key.length = buf.length)
    (hSeal : PwBoxInner.«seal» kdf cipher rng password message = (.ok box, rng2)) :
    box.salt.length = kdf.salt_len ∧
    box.nonce.length = cipher.nonce_len ∧
    deriveKeyCallsHaveLen (PwBoxInner.sealEv kdf cipher rng password message).2
      cipher.key_len = true ∧
    cipherCallsHaveKeyLen (PwBoxInner.sealEv kdf cipher rng password message).2
      cipher.key_len = true ∧
    deriveKeyCallsHaveLen (b2.open_intoEv out2 pw2).2 b2.cipher.key_len = true ∧
    cipherCallsHaveKeyLen (b2.open_intoEv out2 pw2).2 b2.cipher.key_len = true := by
  obtain ⟨key, hd, hbox⟩ := seal_ok_inv kdf cipher rng rng2 password message box hSeal
  subst hbox
  have hk := hkdf _ _ _ _ hd
  rw [zeros_data_length] at hk
  refine ⟨fill_bytes_length _ _, fill_bytes_length _ _, ?_, ?_, ?_, ?_⟩
  · unfold PwBoxInner.sealEv
    simp only [zeros_data_length]
    simp [hd, deriveKeyCallsHaveLen, zeros_data_length]
  · unfold PwBoxInner.sealEv
    simp only [zeros_data_length]
    simp [hd, cipherCallsHaveKeyLen, hk]
  · unfold PwBoxInner.open_intoEv
    by_cases h : out2.length = b2.len
    · simp only [h, if_pos]
      rcases hd2 : b2.kdf.derive_key (SensitiveData.zeros b2.cipher.key_len).data pw2 b2.salt
          with e | key2
      · simp [hd2, deriveKeyCallsHaveLen, zeros_data_length]
      · rcases ho : b2.cipher.«open» out2 b2.encrypted b2.nonce key2 <;>
          simp [hd2, ho, deriveKeyCallsHaveLen, zeros_data_length]
    · simp [h, deriveKeyCallsHaveLen]
  · unfold PwBoxInner.open_intoEv
    by_cases h : out2.length = b2.len
    · simp only [h, if_pos]
      rcases hd2 : b2.kdf.derive_key (SensitiveData.zeros b2.cipher.key_len).data pw2 b2.salt
          with e | key2
      · simp [hd2, cipherCallsHaveKeyLen]
      · have hk2 := hkdf2 _ _ _ _ hd2
        rw [zeros_data_length] at hk2
        rcases ho : b2.cipher.«open» out2 b2.encrypted b2.nonce key2 <;>
          simp [hd2, ho, cipherCallsHaveKeyLen, hk2]
    · simp [h, cipherCallsHaveKeyLen]

/-- Witness for C6 at the toy KDF / cipher and the sealed test box. -/
theorem seal_length_invariants_witness :
    PwBoxInner.«seal» testKdf testCipher testRng [7] [10, 20] =
      (.ok testBox, (PwBoxInner.«seal» testKdf testCipher testRng [7] [10, 20]).2) ∧
    (testBox.salt.length = testKdf.salt_len ∧
     testBox.nonce.length = testCipher.nonce_len ∧
     deriveKeyCallsHaveLen (PwBoxInner.sealEv testKdf testCipher testRng [7] [10, 20]).2
       testCipher.key_len = true ∧
     cipherCallsHaveKeyLen (PwBoxInner.sealEv testKdf testCipher testRng [7] [10, 20]).2
       testCipher.key_len = true ∧
     deriveKeyCallsHaveLen (testBox.open_intoEv [0, 0] [7]).2 testBox.cipher.key_len = true ∧
     cipherCallsHaveKeyLen (testBox.open_intoEv [0, 0] [7]).2 testBox.cipher.key_len = true) :=
  ⟨rfl,
   seal_length_invariants testKdf testCipher testRng
     (PwBoxInner.«seal» testKdf testCipher testRng [7] [10, 20]).2 [7] [10, 20]
     testBox testBox [0, 0] [7]
     (fun buf p s key h => by
       simp only [testKdf, Except.ok.injEq] at h
       subst h
       simp)
     (fun buf p s key h => by
       have h2 : testKdf.derive_key buf p s = Except.ok key := h
       simp only [testKdf, Except.ok.injEq] at h2
       subst h2
       simp)
     rfl⟩

/-- C7: wrapping a concrete cipher in `CipherObject`, or a cipher / KDF in
    the boxed trait object, preserves behavior exactly: every erased method
    agrees with the concrete one, the boxed wrappers are the identity, and
    the generic seal / open logic produces identical results with either
    form. -/
theorem type_erasure_preserves_behavior
    (T : Cipher) (c : ObjectSafeCipher) (k : DeriveKey)
    (kdf : DeriveKey) (rng : Rng) (password message : Bytes)
    (b : PwBoxInner) (output pw2 : Bytes) :
    ((CipherObject T).key_len = T.KEY_LEN ∧
     (CipherObject T).nonce_len = T.NONCE_LEN ∧
     (CipherObject T).mac_len = T.MAC_LEN ∧
     (∀ m n key, (CipherObject T).«seal» m n key = T.«seal» m n key) ∧
     (∀ out e n key, (CipherObject T).«open» out e n key = T.«open» out e n key)) ∧
    ((boxDeriveKey k).salt_len = k.salt_len ∧
     (∀ buf p s, (boxDeriveKey k).derive_key buf p s = k.derive_key buf p s)) ∧
    boxObjectSafeCipher c = c ∧
    boxDeriveKey k = k ∧
    PwBoxInner.«seal» (boxDeriveKey kdf) (boxObjectSafeCipher c) rng password message =
      PwBoxInner.«seal» kdf c rng password message ∧
    PwBoxInner.open_into
        { b with kdf := boxDeriveKey b.kdf, cipher := boxObjectSafeCipher b.cipher }
        output pw2 =
      b.open_into output pw2 ∧
    PwBoxInner.«open»
        { b with kdf := boxDeriveKey b.kdf, cipher := boxObjectSafeCipher b.cipher } pw2 =
      b.«open» pw2 :=
  ⟨⟨rfl, rfl, rfl, fun _ _ _ => rfl, fun _ _ _ _ => rfl⟩,
   ⟨rfl, fun _ _ _ => rfl⟩, rfl, rfl, rfl, rfl, rfl⟩

/-- A toy cipher whose ciphertext embeds the nonce, so different nonces
    force different ciphertexts (used to witness freshness). -/
def freshCipher : ObjectSafeCipher :=
  { key_len := 2
    nonce_len := 3
    mac_len := 0
    «seal» := fun message nonce key =>
      { ciphertext := nonce ++ message.map fun b => b + key.sum
        mac := [] }
    «open» := fun output encrypted nonce key =>
      if encrypted.ciphertext.take 3 = nonce ∧
          output.length + 3 = encrypted.ciphertext.length then
        some ((encrypted.ciphertext.drop 3).map fun b => b - key.sum)
      else
        none }

/-- The box sealed over `testRng` with the nonce-embedding cipher. -/
def freshBoxA : PwBoxInner :=
  ((PwBoxInner.«seal» testKdf freshCipher testRng [7] [10]).1).toOption.getD defaultBox

/-- The box sealed over `testRngB` with the nonce-embedding cipher. -/
def freshBoxB : PwBoxInner :=
  ((PwBoxInner.«seal» testKdf freshCipher testRngB [7] [10]).1).toOption.getD defaultBox

/-- C8: freshness.  Two seals of the same password and message whose drawn
    salt bytes differ and whose drawn nonce bytes differ produce different
    salts, different nonces and — for a cipher whose ciphertext is
    nonce-unique — different ciphertexts. -/
theorem seal_freshness
    (kdf : DeriveKey) (cipher : ObjectSafeCipher) (rngA rngB rA rB : Rng)
    (password message : Bytes) (box1 box2 : PwBoxInner)
    (hu : ∀ m n n2 key key2, n.length = cipher.nonce_len → n2.length = cipher.nonce_len →
        n ≠ n2 → (cipher.«seal» m n key).ciphertext ≠ (cipher.«seal» m n2 key2).ciphertext)
    (hsalt : (rngA.fill_bytes kdf.salt_len).1 ≠ (rngB.fill_bytes kdf.salt_len).1)
    (hnonce : ((rngA.fill_bytes kdf.salt_len).2.fill_bytes cipher.nonce_len).1 ≠
        ((rngB.fill_bytes kdf.salt_len).2.fill_bytes cipher.nonce_len).1)
    (h1 : PwBoxInner.«seal» kdf cipher rngA password message = (.ok box1, rA))
    (h2 : PwBoxInner.«seal» kdf cipher rngB password message = (.ok box2, rB)) :
    box1.salt ≠ box2.salt ∧ box1.nonce ≠ box2.nonce ∧
    box1.encrypted.ciphertext ≠ box2.encrypted.ciphertext := by
  obtain ⟨key1, hd1, hb1⟩ := seal_ok_inv kdf cipher rngA rA password message box1 h1
  obtain ⟨key2, hd2, hb2⟩ := seal_ok_inv kdf cipher rngB rB password message box2 h2
  subst hb1
  subst hb2
  exact ⟨hsalt, hnonce,
    hu message _ _ key1 key2 (fill_bytes_length _ _) (fill_bytes_length _ _) hnonce⟩

/-- Witness for C8: the two RNG streams draw different salts and nonces,
    and the resulting boxes differ in salt, nonce and ciphertext. -/
theorem seal_freshness_witness :
    (testRng.fill_bytes testKdf.salt_len).1 ≠ (testRngB.fill_bytes testKdf.salt_len).1 ∧
    (freshBoxA.salt ≠ freshBoxB.salt ∧ freshBoxA.nonce ≠ freshBoxB.nonce ∧
     freshBoxA.encrypted.ciphertext ≠ freshBoxB.encrypted.ciphertext) :=
  ⟨by decide,
   seal_freshness testKdf freshCipher testRng testRngB
     (PwBoxInner.«seal» testKdf freshCipher testRng [7] [10]).2
     (PwBoxInner.«seal» testKdf freshCipher testRngB [7] [10]).2
     [7] [10] freshBoxA freshBoxB
     (fun m n n2 key key2 hl1 hl2 hne => by
       simp only [freshCipher]
       intro heq
       exact hne (List.append_inj heq (by rw [hl1, hl2])).1)
     (by decide) (by decide) rfl rfl⟩

/-- C9: `open` and `open_into` are deterministic: two invocations on the
    same container with the same password (and buffer) produce the same
    result.  In the embedding both are pure functions of the container and
    password alone — their signatures consume no random source, mirroring
    the Rust code, where no randomness is used after `seal`. -/
theorem open_deterministic
    (b : PwBoxInner) (password output : Bytes)
    (r1 r2 r3 r4 : Option (Except Error Bytes))
    (h1 : b.«open» password = r1) (h2 : b.«open» password = r2)
    (h3 : b.open_into output password = r3) (h4 : b.open_into output password = r4) :
    r1 = r2 ∧ r3 = r4 :=
  ⟨h1.symm.trans h2, h3.symm.trans h4⟩

/-- Witness for C9: two opens of the test box agree. -/
theorem open_deterministic_witness :
    testBox.«open» [7] = (some (.ok [10, 20]) : Option (Except Error Bytes)) ∧
    ((some (.ok [10, 20]) : Option (Except Error Bytes)) = some (.ok [10, 20]) ∧
     (none : Option (Except Error Bytes)) = none) :=
  ⟨rfl,
   open_deterministic testBox [7] []
     (some (.ok [10, 20])) (some (.ok [10, 20])) none none rfl rfl rfl rfl⟩

/-- With a correctly sized buffer and a failing key derivation, `open_into`
    reports `Error.DeriveKey`. -/
theorem open_into_error (b : PwBoxInner) (output password : Bytes) (e : Fail)
    (h : output.length = b.len)
    (hd : b.kdf.derive_key (SensitiveData.zeros b.cipher.key_len).data password b.salt =
      .error e) :
    b.open_into output password = some (.error (.DeriveKey e)) := by
  rw [open_into_of_len _ _ _ h, hd]

/-- With a correctly sized buffer and a derived key, `open_into` reduces to
    the cipher's open. -/
theorem open_into_ok (b : PwBoxInner) (output password key : Bytes)
    (h : output.length = b.len)
    (hd : b.kdf.derive_key (SensitiveData.zeros b.cipher.key_len).data password b.salt =
      .ok key) :
    b.open_into output password =
      (match b.cipher.«open» output b.encrypted b.nonce key with
       | none => some (.error .MacMismatch)
       | some out => some (.ok out)) := by
  rw [open_into_of_len _ _ _ h, hd]

/-- C10: whenever `open` succeeds it returns a buffer of length `len()`
    whose contents are exactly the bytes `open_into` writes into any
    correctly sized caller buffer; in particular `open` and `open_into`
    agree on success and failure.  The hypotheses are the cipher contract:
    a successful `open` fills the whole output buffer, and its result
    depends on the output buffer only through its length. -/
theorem open_agrees_with_open_into
    (b : PwBoxInner) (output password : Bytes)
    (hout : output.length = b.len)
    (hfill : ∀ o e n k res, b.cipher.«open» o e n k = some res → res.length = o.length)
    (hdep : ∀ o1 o2 e n k, o1.length = o2.length →
        b.cipher.«open» o1 e n k = b.cipher.«open» o2 e n k) :
    b.«open» password = b.open_into output password ∧
    (∀ res, b.«open» password = some (.ok res) → res.length = b.len) := by
  have hz : (SensitiveData.zeros b.len).data.length = b.len := zeros_data_length _
  constructor
  · unfold PwBoxInner.«open»
    rcases hd : b.kdf.derive_key (SensitiveData.zeros b.cipher.key_len).data password b.salt
        with e | key
    · rw [open_into_error _ _ _ _ hz hd, open_into_error _ _ _ _ hout hd]
    · rw [open_into_ok _ _ _ _ hz hd, open_into_ok _ _ _ _ hout hd,
        hdep (SensitiveData.zeros b.len).data output b.encrypted b.nonce key
          (hz.trans hout.symm)]
  · intro res h
    unfold PwBoxInner.«open» at h
    rcases hd : b.kdf.derive_key (SensitiveData.zeros b.cipher.key_len).data password b.salt
        with e | key
    · rw [open_into_error _ _ _ _ hz hd] at h
      simp at h
    · rw [open_into_ok _ _ _ _ hz hd] at h
      rcases ho : b.cipher.«open» (SensitiveData.zeros b.len).data b.encrypted b.nonce key
          with _ | out
      · rw [ho] at h
        simp at h
      · rw [ho] at h
        simp only [Option.some.injEq, Except.ok.injEq] at h
        subst h
        exact (hfill _ _ _ _ _ ho).trans hz

/-- Witness for C10: opening the test box agrees with `open_into` on a
    caller buffer `[9, 9]` of the right length, and the plaintext has
    length `len()`. -/
theorem open_agrees_with_open_into_witness :
    ([9, 9] : Bytes).length = testBox.len ∧
    (testBox.«open» [7] = testBox.open_into [9, 9] [7] ∧
     (∀ res, testBox.«open» [7] = some (.ok res) → res.length = testBox.len)) :=
  ⟨rfl,
   open_agrees_with_open_into testBox [9, 9] [7] rfl
     (fun o e n k res h => by
       have h2 : testCipher.«open» o e n k = some res := h
       simp only [testCipher] at h2
       split at h2
       · rename_i hc
         simp only [Option.some.injEq] at h2
         subst h2
         simp [hc.2]
       · exact absurd h2 (by simp))
     (fun o1 o2 e n k h => by
       have h2 : testCipher.«open» o1 e n k = testCipher.«open» o2 e n k := by
         simp only [testCipher, h]
       exact h2)⟩
